import Mathlib

/-!
Shallow embedding of the direct-ynab version-vector and delta-merge engine.

The definitions below are translated from the repository's Python sources:
`src/ynab_io/device_manager.py` (version tokens, composite knowledge,
active-device selection), `src/ynab_io/parser.py` (delta-file discovery and
ordering, the per-record merge, version-bounded replay and restore) and
`src/ynab_io/writer.py` (the change-file write path).  Machine integers are
`Nat`/`Int` (Python integers are unbounded), fallible code returns `Option`
or `Except`, filesystem state is passed explicitly, and the filesystem side
effects of the writer are modeled as explicit operation traces.
-/

namespace YnabIO

/-- A parsed version token `<ReplicaId>-<Counter>`, the result of
`DeviceManager.parse_version_string` on a string matching `^([A-Z])-(\d+)$`. -/
structure VToken where
  id : Char
  num : Nat
deriving DecidableEq, Repr, BEq

/-- The comparison used by `max(..., key=lambda x: (x[1], x[0]))` in
`get_latest_version_from_composite` and `get_latest_version`: counters first,
replica ids as tie-break. -/
def tokenKeyLt (a b : VToken) : Bool :=
  a.num < b.num || (a.num == b.num && a.id < b.id)

/-- The accumulator fold Python `max(..., key=...)` performs over a nonempty
token list. -/
def foldlMaxToken (t : VToken) (ts : List VToken) : VToken :=
  ts.foldl (fun m x => if tokenKeyLt m x then x else m) t

/-- A parsed composite knowledge string.  `parse_composite_knowledge_string`
always returns at least one token (it raises on an empty string), so the
first token is carried separately from the rest. -/
structure Composite where
  head : VToken
  tail : List VToken
deriving DecidableEq, Repr

/-- `DeviceManager.get_latest_version_from_composite`: the token with the
maximal `(counter, replica_id)` key.  Python's `max` keeps the first maximal
element; since the key determines the token this equals
replace-on-strictly-greater. -/
def latestToken (c : Composite) : VToken :=
  foldlMaxToken c.head c.tail

/-- The counter component of the effective version of a composite. -/
def effNum (c : Composite) : Nat :=
  (latestToken c).num

/-- `DeviceManager.compare_versions` (device_manager.py:376-400): the device
ids are compared first, and only on equal ids the counters. -/
def compareVersions (a b : VToken) : Int :=
  if a.id < b.id then -1
  else if b.id < a.id then 1
  else if a.num < b.num then -1
  else if b.num < a.num then 1
  else 0

/-- Python `int(...)` on the digit substring matched by the version regex. -/
def digitsToNat (cs : List Char) : Nat :=
  cs.foldl (fun n c => 10 * n + (c.toNat - 48)) 0

/-- `DeviceManager.parse_version_string`: accepts exactly `^([A-Z])-(\d+)$`,
a single uppercase letter, a dash and a nonempty digit string. -/
def parseVersionTokenChars (cs : List Char) : Option VToken :=
  match cs with
  | c :: '-' :: rest =>
    if ('A' ≤ c && c ≤ 'Z') && (!rest.isEmpty && rest.all (·.isDigit)) then
      some ⟨c, digitsToNat rest⟩
    else none
  | _ => none

/-- The whitespace stripped by Python's `str.strip` (the characters that can
occur around version tokens). -/
def isSpaceChar (c : Char) : Bool :=
  c = ' ' || c = '\t' || c = '\n' || c = '\r'

/-- Python `str.strip()` over the character list of a string. -/
def trimChars (cs : List Char) : List Char :=
  ((cs.dropWhile isSpaceChar).reverse.dropWhile isSpaceChar).reverse

/-- Python `str.split(sep)` for a one-character separator: `"" .split` gives
`[""]`, adjacent separators give empty parts. -/
def splitOnChar (sep : Char) (cs : List Char) : List (List Char) :=
  cs.foldr
    (fun c acc =>
      match acc with
      | [] => [[c]]
      | g :: gs => if c = sep then [] :: g :: gs else (c :: g) :: gs)
    [[]]

/-- `DeviceManager.parse_composite_knowledge_string` (device_manager.py:402-450):
strip, reject empty, defer to `parse_version_string` when there is no comma,
otherwise split on commas, strip and drop empty parts, and parse every part. -/
def parseCompositeKnowledge (s : String) : Option Composite :=
  let cs := trimChars s.data
  if cs.isEmpty then none
  else if !cs.contains ',' then
    (parseVersionTokenChars cs).map (⟨·, []⟩)
  else
    match (splitOnChar ',' cs).map trimChars |>.filter (fun p => !p.isEmpty) with
    | [] => none
    | p :: ps => do
      let t ← parseVersionTokenChars p
      let ts ← ps.mapM parseVersionTokenChars
      pure ⟨t, ts⟩

/-- `YnabParser._parse_delta_versions` (parser.py:208-216): the filename must
end in `.ydiff` and the base name must split on `_` into exactly two parts. -/
def parseDeltaVersions (filename : String) : Option (String × String) :=
  let cs := filename.data
  if List.isSuffixOf ".ydiff".data cs then
    match splitOnChar '_' (cs.take (cs.length - 6)) with
    | [s, e] => some (⟨s⟩, ⟨e⟩)
    | _ => none
  else none

/-- `YnabParser._get_delta_sort_key` (parser.py:187-189): the counter of the
effective version of the start-of-range token parsed from the filename.
`none` models the `ValueError` raised on an unparseable name. -/
def deltaStartKey (filename : String) : Option Nat := do
  let (s, _) ← parseDeltaVersions filename
  let c ← parseCompositeKnowledge s
  pure (effNum c)

/-- `YnabParser._get_version_end_number` (parser.py:284-287): the counter of
the effective version of the end-of-range token parsed from the filename. -/
def deltaEndKey (filename : String) : Option Nat := do
  let (_, e) ← parseDeltaVersions filename
  let c ← parseCompositeKnowledge e
  pure (effNum c)

/-- The comparison `sorted(..., key=self._get_delta_sort_key)` sorts by; the
default never applies on the inputs `discoverDeltaFiles` sorts. -/
def startKeyLe (a b : String) : Prop :=
  (deltaStartKey a).getD 0 ≤ (deltaStartKey b).getD 0

instance : DecidableRel startKeyLe :=
  fun a b => Nat.decLe _ _

instance : IsTotal String startKeyLe :=
  ⟨fun a b => Nat.le_total _ _⟩

instance : IsTrans String startKeyLe :=
  ⟨fun _ _ _ h₁ h₂ => Nat.le_trans h₁ h₂⟩

/-- `*.ydiff` as matched by `device_dir.glob("*.ydiff")`. -/
def hasYdiffExt (s : String) : Bool :=
  List.isSuffixOf ".ydiff".data s.data

/-- `YnabParser._discover_delta_files` (parser.py:183-185): glob the directory
listing for `*.ydiff` and sort (stably, as Python's `sorted`) by the effective
start-version counter.  Insertion sort with a `≤` comparison is the stable
sort.  `none` models the `ValueError` raised when some name cannot be keyed. -/
def discoverDeltaFiles (listing : List String) : Option (List String) :=
  if (listing.filter hasYdiffExt).all (fun n => (deltaStartKey n).isSome) then
    some (List.insertionSort startKeyLe (listing.filter hasYdiffExt))
  else none

/-- A field payload (the type-specific JSON fields of a record), modeled as a
partial map from field names to values; scalar values are modeled as `Nat`. -/
abbrev FieldMap : Type :=
  String → Option Nat

/-- A typed entity as stored in one of the parser's per-type collections.
pydantic's `extra="ignore"` validation keeps only the model's declared field
set; entities are modeled as the post-validation field map, on which that
filter is the identity. -/
structure Entity where
  entityId : String
  entityVersion : Composite
  fields : FieldMap

/-- One change record of a delta file's `items` array: entity id, entity type
tag, tombstone flag, effective version (already parsed, as `_apply_delta`
parses it on demand) and the type-specific payload. -/
structure DeltaItem where
  entityId : String
  entityType : String
  isTombstone : Bool
  entityVersion : Composite
  fields : FieldMap

/-- One per-type id-keyed collection (`self.accounts`, `self.payees`, ...). -/
abbrev EMap : Type :=
  String → Option Entity

/-- The nine per-type collections of `YnabParser`, modeled as one family
indexed by the entity-type tag used in `_get_entity_mapping`. -/
abbrev Collections : Type :=
  String → EMap

/-- The fixed known-type set of `YnabParser._get_entity_mapping`
(parser.py:155-175). -/
def knownEntityTypes : List String :=
  ["account", "payee", "payeeStringCondition", "transaction", "masterCategory",
   "category", "monthlyBudget", "monthlyCategoryBudget", "scheduledTransaction"]

/-- Write one slot of the collections family. -/
def updateAt (c : Collections) (t eid : String) (v : Option Entity) : Collections :=
  fun t' id' => if t' = t ∧ id' = eid then v else c t' id'

/-- The patch in `_apply_delta` (parser.py:252-254): `model_dump()` the
existing entity, `update` it with the record's keys and re-validate.  The
record's keys (its version included) win; fields the record does not carry
keep the existing value. -/
def patchEntity (e : Entity) (it : DeltaItem) : Entity :=
  { entityId := it.entityId
    entityVersion := it.entityVersion
    fields := fun k =>
      match it.fields k with
      | some v => some v
      | none => e.fields k }

/-- `model(**item)` for a record whose id is not yet in the collection
(parser.py:256). -/
def newEntity (it : DeltaItem) : Entity :=
  ⟨it.entityId, it.entityVersion, it.fields⟩

/-- The per-item body of `YnabParser._apply_delta` (parser.py:222-256):
unknown entity types are skipped with a warning; a tombstone removes the id
if present (absence is a no-op); an existing id is replaced by the patched
entity only when the record's effective-version counter is strictly greater;
a new id is inserted unconditionally. -/
def applyItem (c : Collections) (it : DeltaItem) : Collections :=
  if knownEntityTypes.contains it.entityType then
    if it.isTombstone then
      updateAt c it.entityType it.entityId none
    else
      match c it.entityType it.entityId with
      | some ex =>
        if effNum it.entityVersion > effNum ex.entityVersion then
          updateAt c it.entityType it.entityId (some (patchEntity ex it))
        else c
      | none => updateAt c it.entityType it.entityId (some (newEntity it))
  else c

/-- `YnabParser._apply_delta` over a loaded delta file's `items` list. -/
def applyDelta (c : Collections) (items : List DeltaItem) : Collections :=
  items.foldl applyItem c

/-- The effect of one record on the single collection slot it targets. -/
def slotStep (v : Option Entity) (it : DeltaItem) : Option Entity :=
  if it.isTombstone then none
  else
    match v with
    | some ex =>
      if effNum it.entityVersion > effNum ex.entityVersion then some (patchEntity ex it)
      else some ex
    | none => some (newEntity it)

/-- Whether a record is dispatched to the collection slot `(t, eid)`. -/
def targetsSlot (t eid : String) (it : DeltaItem) : Bool :=
  knownEntityTypes.contains it.entityType && it.entityType == t && it.entityId == eid

/-- Folding one slot through the records that target it. -/
def runSlot (v : Option Entity) (l : List DeltaItem) : Option Entity :=
  l.foldl slotStep v

/-- A delta file as the replay loops see it: its filename (which encodes the
version range) and its loaded `items`. -/
structure DeltaFileData where
  name : String
  items : List DeltaItem

/-- The end-of-range counter of a delta file, as `_get_version_end_number`
computes it from the filename; the default never applies on parseable names. -/
def endNumOf (f : DeltaFileData) : Nat :=
  (deltaEndKey f.name).getD 0

/-- `YnabParser._apply_deltas_up_to_version` (parser.py:350-363): walk the
discovered files in order, apply every file whose end version is at most the
target and stop at the first file beyond it, recording the applied names. -/
def applyDeltasUpToVersion (T : Int) :
    List DeltaFileData → Collections → List String → Collections × List String
  | [], c, applied => (c, applied)
  | f :: rest, c, applied =>
    if (endNumOf f : Int) ≤ T then
      applyDeltasUpToVersion T rest (applyDelta c f.items) (applied ++ [f.name])
    else (c, applied)

/-- `YnabParser.parse_up_to_version` (parser.py:56-74) after the snapshot is
loaded: the delta strategy applies deltas up to the target only when the
target is positive, and performs no validation. -/
def parseUpToVersion (snapshot : Collections) (files : List DeltaFileData)
    (T : Int) : Collections × List String :=
  if T > 0 then applyDeltasUpToVersion T files snapshot [] else (snapshot, [])

/-- The state `restore_to_version` operates on: the saved base (snapshot)
state, the current collections, the applied-deltas bookkeeping and the
discovered delta files of the active device directory. -/
structure ParserState where
  baseState : Collections
  collections : Collections
  appliedDeltas : List String
  files : List DeltaFileData

/-- The two `ValueError`s of `_validate_target_version` (parser.py:334-348),
kept structured: the negative-version message names only the requested value
and a non-negativity bound; the not-found message names the requested value
and the available set. -/
inductive VersionError where
  | nonNegative (requested : Int)
  | notFound (requested : Int) (available : List Int)
deriving DecidableEq, Repr

/-- `YnabParser.get_available_versions` (parser.py:289-298): `[0]` followed by
every discovered file's end version, sorted. -/
def getAvailableVersions (files : List DeltaFileData) : List Int :=
  List.insertionSort (· ≤ ·) ((0 : Int) :: files.map (fun f => (endNumOf f : Int)))

/-- `YnabParser._validate_target_version` (parser.py:334-348). -/
def validateTargetVersion (files : List DeltaFileData) (T : Int) :
    Except VersionError Unit :=
  if T < 0 then Except.error (VersionError.nonNegative T)
  else if (getAvailableVersions files).contains T then Except.ok ()
  else Except.error (VersionError.notFound T (getAvailableVersions files))

/-- `YnabParser.restore_to_version` (parser.py:262-282): validate, restore the
base state and clear the applied list, return for target 0, otherwise apply
deltas up to the target. -/
def restoreToVersion (p : ParserState) (T : Int) : Except VersionError ParserState :=
  match validateTargetVersion p.files T with
  | Except.error e => Except.error e
  | Except.ok _ =>
    if T = 0 then
      Except.ok { p with collections := p.baseState, appliedDeltas := [] }
    else
      Except.ok { p with
        collections := (applyDeltasUpToVersion T p.files p.baseState []).1,
        appliedDeltas := (applyDeltasUpToVersion T p.files p.baseState []).2 }

/-- A filesystem side effect of the write path. -/
inductive FsOp where
  | write (path content : String)
  | rename (src dst : String)
  | delete (path : String)
deriving DecidableEq, Repr

/-- The operation sequence of `DeviceManager.update_device_knowledge`
(device_manager.py:573-585): dump the updated document to
`<path>.tmp` (`with_suffix('.ydevice.tmp')` on a `*.ydevice` path appends
`.tmp`), then atomically `replace` it over the target; if the write fails the
temp file is removed and the target is never touched. -/
def updateDeviceKnowledgeOps (ydevicePath content : String)
    (failDuringWrite : Bool) : List FsOp :=
  if failDuringWrite then
    [FsOp.write (ydevicePath ++ ".tmp") content, FsOp.delete (ydevicePath ++ ".tmp")]
  else
    [FsOp.write (ydevicePath ++ ".tmp") content, FsOp.rename (ydevicePath ++ ".tmp") ydevicePath]

/-- The filesystem operations of `YnabWriter.write_changes` on its success
path (writer.py:239-293): the ydiff content is fully serialized in memory,
written directly at its final path `device_dir / filename` in one step, and
then the `.ydevice` knowledge update follows. -/
def writeChangesOps (deviceDir fname ydevicePath ydiffContent ydeviceContent : String) :
    List FsOp :=
  FsOp.write (deviceDir ++ "/" ++ fname) ydiffContent ::
    updateDeviceKnowledgeOps ydevicePath ydeviceContent false

/-- The mechanism the spec prescribes for a path: the final path is never the
target of a direct write, and the content arrives by writing a distinct
temporary path and renaming it into place. -/
def atomicReplacePattern (ops : List FsOp) (path : String) : Prop :=
  (∀ content, FsOp.write path content ∉ ops) ∧
  ∃ tmp content, tmp ≠ path ∧ FsOp.write tmp content ∈ ops ∧ FsOp.rename tmp path ∈ ops

/-- The `Budget` pydantic model (models.py:99-108): EIGHT entity collections;
there is no `payee_string_conditions` field.  Each collection is kept as its
id-keyed mapping (the code materializes `list(dict.values())`, a repackaging
of the same mapping). -/
structure Budget where
  accounts : EMap
  payees : EMap
  transactions : EMap
  master_categories : EMap
  categories : EMap
  monthly_budgets : EMap
  monthly_category_budgets : EMap
  scheduled_transactions : EMap

/-- `YnabParser._create_budget_object` (parser.py:117-133): the parser passes
nine collections, `payee_string_conditions` included, but `Budget` declares
only eight fields and pydantic's default extra-keyword handling drops the
ninth, so the constructed value carries no payee-string-condition data. -/
def createBudgetObject (c : Collections) : Budget :=
  { accounts := c "account"
    payees := c "payee"
    transactions := c "transaction"
    master_categories := c "masterCategory"
    categories := c "category"
    monthly_budgets := c "monthlyBudget"
    monthly_category_budgets := c "monthlyCategoryBudget"
    scheduled_transactions := c "scheduledTransaction" }

/-- `DeviceManager.get_latest_version` (device_manager.py:478-517) on parsed
knowledge: reduce every composite to its latest token and take the maximum by
`(counter, device_id)`; the code raises on an empty list, modeled as `none`. -/
def getLatestVersion (vs : List Composite) : Option VToken :=
  match vs.map latestToken with
  | [] => none
  | t :: ts => some (foldlMaxToken t ts)

/-- `DeviceManager._find_device_with_latest_knowledge`
(device_manager.py:121-139) over the guid-to-parsed-knowledge association in
directory-iteration order: compute the overall latest token, return the first
device whose knowledge's latest token equals it (the code compares the
formatted `f"{id}-{num}"` strings, which agree exactly when the tokens do),
falling back to the first device. -/
def findDeviceWithLatestKnowledge (dks : List (String × Composite)) : Option String :=
  match getLatestVersion (dks.map (·.2)) with
  | none => none
  | some latest =>
    match dks.find? (fun gk => latestToken gk.2 == latest) with
    | some gk => some gk.1
    | none => (dks.head?).map (·.1)

/-- The delta-ordering and fold part of `assemble` from a raw directory
listing: discover and order the change files, then fold their loaded items
over the snapshot.  `contents` maps each filename to its loaded records. -/
def assembleFromListing (snapshot : Collections) (contents : String → List DeltaItem)
    (listing : List String) : Option Collections :=
  (discoverDeltaFiles listing).map fun fs =>
    fs.foldl (fun c n => applyDelta c (contents n)) snapshot

/-! ### Concrete fixtures used by witnesses and counterexamples -/

/-- The collections state with every collection empty. -/
def emptyCollections : Collections :=
  fun _ _ => none

/-- A single-token composite `A-<n>`. -/
def exTok (n : Nat) : Composite :=
  ⟨⟨'A', n⟩, []⟩

/-- A payee entity `X` at version `A-3`. -/
def exEntity3 : Entity :=
  ⟨"X", exTok 3, fun _ => none⟩

/-- Collections holding exactly the payee `X` at `A-3`. -/
def cW : Collections :=
  updateAt emptyCollections "payee" "X" (some exEntity3)

/-- A payee change record for `X` at `A-5` carrying one field. -/
def itW : DeltaItem :=
  ⟨"X", "payee", false, exTok 5, fun k => if k = "m" then some 1 else none⟩

/-- A payee record for `X` at `A-10`. -/
def itemA10 : DeltaItem :=
  ⟨"X", "payee", false, exTok 10, fun _ => none⟩

/-- A tombstone record for `X` (stamped `A-11`). -/
def itemTombX : DeltaItem :=
  ⟨"X", "payee", true, exTok 11, fun _ => none⟩

/-- A payee record for `X` at `A-1`. -/
def itemA1 : DeltaItem :=
  ⟨"X", "payee", false, exTok 1, fun _ => none⟩

/-- Insert at `A-10`, delete, re-insert at `A-1`. -/
def cexItems : List DeltaItem :=
  [itemA10, itemTombX, itemA1]

/-- Two empty change files with end versions 2 and 5. -/
def filesW : List DeltaFileData :=
  [⟨"A-1_A-2.ydiff", []⟩, ⟨"A-2_A-5.ydiff", []⟩]

/-- A parser state over `filesW` with an empty snapshot. -/
def pW : ParserState :=
  ⟨emptyCollections, emptyCollections, [], filesW⟩

/-- The parser state after restoring `pW` to version 5. -/
def p1W : ParserState :=
  { baseState := emptyCollections
    collections := (applyDeltasUpToVersion 5 filesW emptyCollections []).1
    appliedDeltas := (applyDeltasUpToVersion 5 filesW emptyCollections []).2
    files := filesW }

/-- Change-file name with effective start counter 5 on replica A. -/
def nTie1 : String :=
  "A-5_A-6.ydiff"

/-- Change-file name with effective start counter 5 on replica B. -/
def nTie2 : String :=
  "B-5_B-6.ydiff"

/-- Record writing field `m := 1` for payee `X` at `A-7`. -/
def itemM1 : DeltaItem :=
  ⟨"X", "payee", false, ⟨⟨'A', 7⟩, []⟩, fun k => if k = "m" then some 1 else none⟩

/-- Record writing field `m := 2` for payee `X` at `B-7` (same counter 7). -/
def itemM2 : DeltaItem :=
  ⟨"X", "payee", false, ⟨⟨'B', 7⟩, []⟩, fun k => if k = "m" then some 2 else none⟩

/-- Loaded contents of the two tied change files. -/
def contentsC : String → List DeltaItem :=
  fun n => if n = nTie1 then [itemM1] else if n = nTie2 then [itemM2] else []

/-- Observe payee `X`'s field `m` in an assembly result. -/
def projC (r : Option Collections) : Option (Option Nat) :=
  r.map fun c => (c "payee" "X").bind fun e => e.fields "m"

/-- A payee-string-condition entity. -/
def pscEntity : Entity :=
  ⟨"PSC-1", exTok 1, fun _ => none⟩

/-- Collections holding exactly one payee-string-condition entity. -/
def cPSC : Collections :=
  updateAt emptyCollections "payeeStringCondition" "PSC-1" (some pscEntity)

/-! ### Slot-level lemmas for the merge engine -/

theorem updateAt_apply (c : Collections) (t' id' : String) (v : Option Entity)
    (t eid : String) :
    updateAt c t' id' v t eid = if t = t' ∧ eid = id' then v else c t eid :=
  rfl

theorem applyItem_slot (c : Collections) (it : DeltaItem) (t eid : String) :
    applyItem c it t eid =
      if targetsSlot t eid it then slotStep (c t eid) it else c t eid := by
  by_cases hk : knownEntityTypes.contains it.entityType = true
  · by_cases hts : it.entityType = t ∧ it.entityId = eid
    · obtain ⟨ht, hi⟩ := hts
      subst ht hi
      have hk' : it.entityType ∈ knownEntityTypes := by simpa using hk
      have htg : targetsSlot it.entityType it.entityId it = true := by
        simp [targetsSlot, hk']
      rw [htg]
      simp only [if_true]
      cases htm : it.isTombstone with
      | true => simp [applyItem, slotStep, hk', htm, updateAt_apply]
      | false =>
        cases hc : c it.entityType it.entityId with
        | none => simp [applyItem, slotStep, hk', htm, hc, updateAt_apply]
        | some ex =>
          by_cases hgt : effNum it.entityVersion > effNum ex.entityVersion
          · simp [applyItem, slotStep, hk', htm, hc, hgt, updateAt_apply]
          · simp [applyItem, slotStep, hk', htm, hc, hgt, updateAt_apply]
    · have htg : targetsSlot t eid it = false := by
        simp only [targetsSlot, Bool.and_eq_true, beq_iff_eq, Bool.and_assoc]
        simp only [Bool.eq_false_iff, ne_eq, Bool.and_eq_true, beq_iff_eq]
        intro hcon
        exact hts ⟨hcon.2.1, hcon.2.2⟩
      rw [htg]
      simp only [Bool.false_eq_true, if_false]
      have hne : ¬(t = it.entityType ∧ eid = it.entityId) := by
        intro hcon
        exact hts ⟨hcon.1.symm, hcon.2.symm⟩
      unfold applyItem
      rw [if_pos hk]
      cases htm : it.isTombstone with
      | true => simp [updateAt_apply, hne]
      | false =>
        cases hc : c it.entityType it.entityId with
        | none => simp [updateAt_apply, hne]
        | some ex =>
          by_cases hgt : effNum it.entityVersion > effNum ex.entityVersion
          · simp [hgt, updateAt_apply, hne]
          · simp [hgt]
  · have htg : targetsSlot t eid it = false := by
      simp only [targetsSlot, Bool.and_eq_true, Bool.eq_false_iff, ne_eq]
      intro hcon
      exact hk hcon.1.1
    rw [htg]
    simp only [Bool.false_eq_true, if_false]
    unfold applyItem
    rw [if_neg hk]

theorem applyDelta_slot (items : List DeltaItem) (c : Collections) (t eid : String) :
    applyDelta c items t eid = runSlot (c t eid) (items.filter (targetsSlot t eid)) := by
  induction items generalizing c with
  | nil => rfl
  | cons it rest ih =>
    show applyDelta (applyItem c it) rest t eid = _
    rw [ih, List.filter_cons]
    cases h : targetsSlot t eid it with
    | true =>
      simp only [if_pos rfl]
      have : applyItem c it t eid = slotStep (c t eid) it := by
        rw [applyItem_slot, h, if_pos rfl]
      rw [this]
      rfl
    | false =>
      simp only [Bool.false_eq_true, if_false]
      have : applyItem c it t eid = c t eid := by
        rw [applyItem_slot, h]
        simp
      rw [this]

theorem slotStep_tomb (v : Option Entity) (it : DeltaItem) (h : it.isTombstone = true) :
    slotStep v it = none := by
  simp [slotStep, h]

theorem slotStep_notomb_some (v : Option Entity) (it : DeltaItem)
    (h : it.isTombstone = false) :
    ∃ e, slotStep v it = some e ∧ effNum it.entityVersion ≤ effNum e.entityVersion := by
  cases v with
  | none => exact ⟨newEntity it, by simp [slotStep, h], le_refl _⟩
  | some ex =>
    by_cases hgt : effNum it.entityVersion > effNum ex.entityVersion
    · refine ⟨patchEntity ex it, by simp [slotStep, h, hgt], ?_⟩
      simp [patchEntity]
    · refine ⟨ex, by simp [slotStep, h, hgt], ?_⟩
      exact Nat.le_of_not_lt hgt

theorem runSlot_mono (l : List DeltaItem) (h : ∀ it ∈ l, it.isTombstone = false)
    (e : Entity) :
    ∃ e', runSlot (some e) l = some e' ∧
      effNum e.entityVersion ≤ effNum e'.entityVersion := by
  induction l generalizing e with
  | nil => exact ⟨e, rfl, le_refl _⟩
  | cons it rest ih =>
    have hit : it.isTombstone = false := h it (List.mem_cons_self _ _)
    have hrest : ∀ x ∈ rest, x.isTombstone = false :=
      fun x hx => h x (List.mem_cons_of_mem _ hx)
    show ∃ e', runSlot (slotStep (some e) it) rest = some e' ∧ _
    by_cases hgt : effNum it.entityVersion > effNum e.entityVersion
    · have hstep : slotStep (some e) it = some (patchEntity e it) := by
        simp [slotStep, hit, hgt]
      rw [hstep]
      obtain ⟨e', he', hle⟩ := ih hrest (patchEntity e it)
      refine ⟨e', he', ?_⟩
      have : effNum (patchEntity e it).entityVersion = effNum it.entityVersion := rfl
      rw [this] at hle
      exact Nat.le_trans (Nat.le_of_lt hgt) hle
    · have hstep : slotStep (some e) it = some e := by
        simp [slotStep, hit, hgt]
      rw [hstep]
      exact ih hrest e

theorem runSlot_ub (l : List DeltaItem) (h : ∀ it ∈ l, it.isTombstone = false)
    (v : Option Entity) (e' : Entity) (hrun : runSlot v l = some e') :
    ∀ it ∈ l, effNum it.entityVersion ≤ effNum e'.entityVersion := by
  induction l generalizing v with
  | nil => intro it hit; exact absurd hit (List.not_mem_nil it)
  | cons it₀ rest ih =>
    have hit₀ : it₀.isTombstone = false := h it₀ (List.mem_cons_self _ _)
    have hrest : ∀ x ∈ rest, x.isTombstone = false :=
      fun x hx => h x (List.mem_cons_of_mem _ hx)
    obtain ⟨e₀, hstep, hle₀⟩ := slotStep_notomb_some v it₀ hit₀
    have hrun' : runSlot (some e₀) rest = some e' := by
      have : runSlot v (it₀ :: rest) = runSlot (slotStep v it₀) rest := rfl
      rw [this, hstep] at hrun
      exact hrun
    intro it hit
    rcases List.mem_cons.mp hit with rfl | hmem
    · obtain ⟨e'', he'', hle''⟩ := runSlot_mono rest hrest e₀
      rw [hrun'] at he''
      injection he'' with he''
      subst he''
      exact Nat.le_trans hle₀ hle''
    · exact ih hrest (some e₀) hrun' it hmem

theorem runSlot_noop (l : List DeltaItem) (h : ∀ it ∈ l, it.isTombstone = false)
    (e : Entity)
    (hub : ∀ it ∈ l, effNum it.entityVersion ≤ effNum e.entityVersion) :
    runSlot (some e) l = some e := by
  induction l with
  | nil => rfl
  | cons it rest ih =>
    have hit : it.isTombstone = false := h it (List.mem_cons_self _ _)
    have hle : effNum it.entityVersion ≤ effNum e.entityVersion :=
      hub it (List.mem_cons_self _ _)
    have hstep : slotStep (some e) it = some e := by
      simp [slotStep, hit, Nat.not_lt_of_le hle]
    show runSlot (slotStep (some e) it) rest = some e
    rw [hstep]
    exact ih (fun x hx => h x (List.mem_cons_of_mem _ hx))
      (fun x hx => hub x (List.mem_cons_of_mem _ hx))

theorem runSlot_none_of_tombfree (l : List DeltaItem)
    (h : ∀ it ∈ l, it.isTombstone = false) (v : Option Entity)
    (hrun : runSlot v l = none) : l = [] ∧ v = none := by
  cases l with
  | nil =>
    cases v with
    | none => exact ⟨rfl, rfl⟩
    | some e => exact absurd hrun (by simp [runSlot])
  | cons it rest =>
    have hit : it.isTombstone = false := h it (List.mem_cons_self _ _)
    obtain ⟨e₀, hstep, _⟩ := slotStep_notomb_some v it hit
    obtain ⟨e', he', _⟩ :=
      runSlot_mono rest (fun x hx => h x (List.mem_cons_of_mem _ hx)) e₀
    have : runSlot v (it :: rest) = runSlot (some e₀) rest := by
      show runSlot (slotStep v it) rest = _
      rw [hstep]
    rw [this, he'] at hrun
    exact absurd hrun (by simp)

theorem exists_last_tombstone (l : List DeltaItem) :
    (∀ it ∈ l, it.isTombstone = false) ∨
    ∃ l₁ t l₂, l = l₁ ++ t :: l₂ ∧ t.isTombstone = true ∧
      ∀ it ∈ l₂, it.isTombstone = false := by
  induction l using List.reverseRecOn with
  | nil => left; intro it hit; exact absurd hit (List.not_mem_nil it)
  | append_singleton l' a ih =>
    cases ha : a.isTombstone with
    | true => right; exact ⟨l', a, [], by simp, ha, by simp⟩
    | false =>
      rcases ih with h | ⟨l₁, t, l₂, rfl, ht, h₂⟩
      · left
        intro it hit
        rcases List.mem_append.mp hit with hmem | hmem
        · exact h it hmem
        · rw [List.mem_singleton.mp hmem]; exact ha
      · right
        refine ⟨l₁, t, l₂ ++ [a], by simp, ht, ?_⟩
        intro it hit
        rcases List.mem_append.mp hit with hmem | hmem
        · exact h₂ it hmem
        · rw [List.mem_singleton.mp hmem]; exact ha

theorem runSlot_append_tomb (l₁ l₂ : List DeltaItem) (t : DeltaItem)
    (ht : t.isTombstone = true) (v : Option Entity) :
    runSlot v (l₁ ++ t :: l₂) = runSlot none l₂ := by
  show List.foldl slotStep v (l₁ ++ t :: l₂) = _
  rw [List.foldl_append, List.foldl_cons, slotStep_tomb _ _ ht]
  rfl

theorem runSlot_idem (l : List DeltaItem) (v : Option Entity) :
    runSlot (runSlot v l) l = runSlot v l := by
  rcases exists_last_tombstone l with h | ⟨l₁, t, l₂, rfl, ht, _⟩
  · cases hr : runSlot v l with
    | none =>
      obtain ⟨hl, _⟩ := runSlot_none_of_tombfree l h v hr
      subst hl
      rfl
    | some e' =>
      have hub := runSlot_ub l h v e' hr
      exact runSlot_noop l h e' hub
  · rw [runSlot_append_tomb _ _ _ ht, runSlot_append_tomb _ _ _ ht]

theorem applyDelta_idem (c : Collections) (items : List DeltaItem) :
    applyDelta (applyDelta c items) items = applyDelta c items := by
  funext t eid
  rw [applyDelta_slot, applyDelta_slot]
  exact runSlot_idem _ _

/-! ### Replay and restore lemmas -/

theorem applyDeltasUpToVersion_eq (T : Int) (files : List DeltaFileData)
    (c : Collections) (applied : List String) :
    applyDeltasUpToVersion T files c applied =
      (List.foldl (fun c f => applyDelta c f.items) c
         (files.takeWhile (fun f => (endNumOf f : Int) ≤ T)),
       applied ++ (files.takeWhile (fun f => (endNumOf f : Int) ≤ T)).map (·.name)) := by
  induction files generalizing c applied with
  | nil => simp [applyDeltasUpToVersion]
  | cons f rest ih =>
    by_cases h : (endNumOf f : Int) ≤ T
    · rw [applyDeltasUpToVersion, if_pos h, ih]
      simp [List.takeWhile_cons, h]
    · rw [applyDeltasUpToVersion, if_neg h]
      simp [List.takeWhile_cons, h]

theorem restoreToVersion_ok_shape (p : ParserState) (T : Int)
    (h : validateTargetVersion p.files T = Except.ok ()) :
    restoreToVersion p T = Except.ok
      { baseState := p.baseState
        collections :=
          if T = 0 then p.baseState
          else (applyDeltasUpToVersion T p.files p.baseState []).1
        appliedDeltas :=
          if T = 0 then []
          else (applyDeltasUpToVersion T p.files p.baseState []).2
        files := p.files } := by
  unfold restoreToVersion
  rw [h]
  by_cases h0 : T = 0 <;> simp [h0]

theorem restoreToVersion_error_shape (p : ParserState) (T : Int) (e : VersionError)
    (h : validateTargetVersion p.files T = Except.error e) :
    restoreToVersion p T = Except.error e := by
  unfold restoreToVersion
  rw [h]

/-! ### Order-independence lemmas -/

theorem sorted_perm_distinct_eq {l₁ l₂ : List String} (hp : l₁.Perm l₂)
    (hd : l₁.Pairwise (fun a b => (deltaStartKey a).getD 0 ≠ (deltaStartKey b).getD 0))
    (hs₁ : List.Sorted startKeyLe l₁) (hs₂ : List.Sorted startKeyLe l₂) :
    l₁ = l₂ := by
  have hd₂ : l₂.Pairwise
      (fun a b => (deltaStartKey a).getD 0 ≠ (deltaStartKey b).getD 0) :=
    (List.Perm.pairwise_iff (fun h => h.symm) hp).mp hd
  have hlt₁ : l₁.Pairwise
      (fun a b => (deltaStartKey a).getD 0 < (deltaStartKey b).getD 0) :=
    (hs₁.and hd).imp fun h => Nat.lt_of_le_of_ne h.1 h.2
  have hlt₂ : l₂.Pairwise
      (fun a b => (deltaStartKey a).getD 0 < (deltaStartKey b).getD 0) :=
    (hs₂.and hd₂).imp fun h => Nat.lt_of_le_of_ne h.1 h.2
  haveI : IsAntisymm String
      (fun a b => (deltaStartKey a).getD 0 < (deltaStartKey b).getD 0) :=
    ⟨fun _ _ h1 h2 => absurd h1 (Nat.lt_asymm h2)⟩
  exact List.eq_of_perm_of_sorted hp hlt₁ hlt₂

theorem all_keys_perm {l₁ l₂ : List String} (hp : l₁.Perm l₂) :
    l₁.all (fun n => (deltaStartKey n).isSome) =
      l₂.all (fun n => (deltaStartKey n).isSome) := by
  cases h : l₂.all (fun n => (deltaStartKey n).isSome) with
  | true =>
    rw [List.all_eq_true] at h ⊢
    exact fun x hx => h x (hp.mem_iff.mp hx)
  | false =>
    rw [Bool.eq_false_iff] at h ⊢
    intro hcon
    rw [List.all_eq_true] at hcon
    exact h (List.all_eq_true.mpr fun x hx => hcon x (hp.mem_iff.mpr hx))

theorem discoverDeltaFiles_perm_eq {l₁ l₂ : List String} (hp : l₁.Perm l₂)
    (hd : (l₁.filter hasYdiffExt).Pairwise
      (fun a b => deltaStartKey a ≠ deltaStartKey b)) :
    discoverDeltaFiles l₁ = discoverDeltaFiles l₂ := by
  have hpf : (l₁.filter hasYdiffExt).Perm (l₂.filter hasYdiffExt) :=
    hp.filter _
  unfold discoverDeltaFiles
  rw [all_keys_perm hpf]
  cases hall : (l₂.filter hasYdiffExt).all (fun n => (deltaStartKey n).isSome) with
  | false => rfl
  | true =>
    simp only [if_pos rfl]
    rw [List.all_eq_true] at hall
    have hd' : (l₁.filter hasYdiffExt).Pairwise
        (fun a b => (deltaStartKey a).getD 0 ≠ (deltaStartKey b).getD 0) := by
      refine hd.imp_of_mem ?_
      intro a b ha hb hne
      obtain ⟨ka, hka⟩ := Option.isSome_iff_exists.mp (hall a (hpf.mem_iff.mp ha))
      obtain ⟨kb, hkb⟩ := Option.isSome_iff_exists.mp (hall b (hpf.mem_iff.mp hb))
      rw [hka, hkb]
      intro hcon
      apply hne
      rw [hka, hkb]
      have hkk : ka = kb := by simpa using hcon
      rw [hkk]
    have hperm : (List.insertionSort startKeyLe (l₁.filter hasYdiffExt)).Perm
        (List.insertionSort startKeyLe (l₂.filter hasYdiffExt)) :=
      ((List.perm_insertionSort _ _).trans hpf).trans
        (List.perm_insertionSort _ _).symm
    have hd₁ : (List.insertionSort startKeyLe (l₁.filter hasYdiffExt)).Pairwise
        (fun a b => (deltaStartKey a).getD 0 ≠ (deltaStartKey b).getD 0) :=
      (List.Perm.pairwise_iff (fun h => h.symm)
        (List.perm_insertionSort startKeyLe (l₁.filter hasYdiffExt))).mpr hd'
    exact congrArg some
      (sorted_perm_distinct_eq hperm hd₁
        (List.sorted_insertionSort _ _) (List.sorted_insertionSort _ _))

theorem tokenKeyLt_iff (a b : VToken) :
    tokenKeyLt a b = true ↔ a.num < b.num ∨ (a.num = b.num ∧ a.id < b.id) := by
  simp [tokenKeyLt]

theorem tokenKeyLt_irrefl (a : VToken) : tokenKeyLt a a = false := by
  simp [tokenKeyLt]

theorem tokenKeyLt_trans {a b c : VToken} (h₁ : tokenKeyLt a b = true)
    (h₂ : tokenKeyLt b c = true) : tokenKeyLt a c = true := by
  rw [tokenKeyLt_iff] at h₁ h₂ ⊢
  rcases h₁ with h₁ | ⟨h₁n, h₁i⟩ <;> rcases h₂ with h₂ | ⟨h₂n, h₂i⟩
  · exact Or.inl (Nat.lt_trans h₁ h₂)
  · exact Or.inl (h₂n ▸ h₁)
  · exact Or.inl (h₁n ▸ h₂)
  · exact Or.inr ⟨h₁n.trans h₂n, lt_trans h₁i h₂i⟩

theorem tokenKey_eq_of_not_lt {a b : VToken} (h₁ : tokenKeyLt a b = false)
    (h₂ : tokenKeyLt b a = false) : a = b := by
  rw [Bool.eq_false_iff, ne_eq, tokenKeyLt_iff] at h₁ h₂
  push_neg at h₁ h₂
  obtain ⟨h₁n, h₁i⟩ := h₁
  obtain ⟨h₂n, h₂i⟩ := h₂
  have hn : a.num = b.num := Nat.le_antisymm h₂n h₁n
  have hi : a.id = b.id := le_antisymm (h₂i hn.symm) (h₁i hn)
  cases a
  cases b
  simp_all

theorem foldlMaxToken_mem (t : VToken) (ts : List VToken) :
    foldlMaxToken t ts ∈ t :: ts := by
  induction ts generalizing t with
  | nil => exact List.mem_singleton.mpr rfl
  | cons x ts ih =>
    have hstep : foldlMaxToken t (x :: ts) =
        foldlMaxToken (if tokenKeyLt t x then x else t) ts := rfl
    by_cases hlt : tokenKeyLt t x = true
    · rw [hstep, if_pos hlt]
      rcases List.mem_cons.mp (ih x) with h | h
      · rw [h]
        exact List.mem_cons_of_mem _ (List.mem_cons_self _ _)
      · exact List.mem_cons_of_mem _ (List.mem_cons_of_mem _ h)
    · rw [hstep, if_neg hlt]
      rcases List.mem_cons.mp (ih t) with h | h
      · rw [h]
        exact List.mem_cons_self _ _
      · exact List.mem_cons_of_mem _ (List.mem_cons_of_mem _ h)

theorem foldlMaxToken_ub (t : VToken) (ts : List VToken) :
    ∀ x ∈ t :: ts, tokenKeyLt (foldlMaxToken t ts) x = false := by
  induction ts generalizing t with
  | nil =>
    intro x hx
    rw [List.mem_singleton.mp hx]
    exact tokenKeyLt_irrefl t
  | cons y ts ih =>
    intro x hx
    have hstep : foldlMaxToken t (y :: ts) =
        foldlMaxToken (if tokenKeyLt t y then y else t) ts := rfl
    by_cases hty : tokenKeyLt t y = true
    · rw [hstep, if_pos hty]
      rcases List.mem_cons.mp hx with rfl | hx'
      · -- x = t: the accumulator moved past t to y with t < y
        have hy : tokenKeyLt (foldlMaxToken y ts) y = false :=
          ih y y (List.mem_cons_self _ _)
        cases hxy : tokenKeyLt (foldlMaxToken y ts) x with
        | false => rfl
        | true =>
          have : tokenKeyLt (foldlMaxToken y ts) y = true :=
            tokenKeyLt_trans hxy hty
          rw [hy] at this
          exact absurd this (by simp)
      · exact ih y x hx'
    · rw [hstep, if_neg hty]
      have hty' : tokenKeyLt t y = false := Bool.eq_false_iff.mpr hty
      rcases List.mem_cons.mp hx with rfl | hx'
      · exact ih x x (List.mem_cons_self _ _)
      · rcases List.mem_cons.mp hx' with rfl | hx''
        · -- x = y with ¬ t < y: y is at most t, which the accumulator bounds
          have ht : tokenKeyLt (foldlMaxToken t ts) t = false :=
            ih t t (List.mem_cons_self _ _)
          cases hxy : tokenKeyLt (foldlMaxToken t ts) x with
          | false => rfl
          | true =>
            cases hxt : tokenKeyLt x t with
            | true =>
              have : tokenKeyLt (foldlMaxToken t ts) t = true :=
                tokenKeyLt_trans hxy hxt
              rw [ht] at this
              exact absurd this (by simp)
            | false =>
              have hxeq : x = t := tokenKey_eq_of_not_lt hxt hty'
              rw [hxeq, ht] at hxy
              exact absurd hxy (by simp)
        · exact ih t x (List.mem_cons_of_mem _ hx'')

theorem foldlMaxToken_eq_of_mem_ub (t : VToken) (ts : List VToken) (m : VToken)
    (hm : m ∈ t :: ts) (hub : ∀ x ∈ t :: ts, tokenKeyLt m x = false) :
    foldlMaxToken t ts = m :=
  tokenKey_eq_of_not_lt (foldlMaxToken_ub t ts m hm) (hub _ (foldlMaxToken_mem t ts))

theorem getLatestVersion_perm {vs₁ vs₂ : List Composite} (hp : vs₁.Perm vs₂) :
    getLatestVersion vs₁ = getLatestVersion vs₂ := by
  have hmp : (vs₁.map latestToken).Perm (vs₂.map latestToken) := hp.map _
  unfold getLatestVersion
  cases h₁ : vs₁.map latestToken with
  | nil =>
    rw [h₁] at hmp
    rw [hmp.symm.eq_nil]
  | cons t₁ ts₁ =>
    cases h₂ : vs₂.map latestToken with
    | nil =>
      rw [h₁, h₂] at hmp
      exact absurd hmp.symm.nil_eq (by simp)
    | cons t₂ ts₂ =>
      rw [h₁, h₂] at hmp
      refine congrArg some ?_
      show foldlMaxToken t₁ ts₁ = foldlMaxToken t₂ ts₂
      refine foldlMaxToken_eq_of_mem_ub t₁ ts₁ (foldlMaxToken t₂ ts₂) ?_ ?_
      · exact hmp.mem_iff.mpr (foldlMaxToken_mem t₂ ts₂)
      · intro x hx
        exact foldlMaxToken_ub t₂ ts₂ x (hmp.mem_iff.mp hx)

theorem find?_of_filter_singleton {α : Type} {p : α → Bool} {l : List α} {x : α}
    (h : l.filter p = [x]) : l.find? p = some x := by
  induction l with
  | nil => exact absurd h (by simp)
  | cons a rest ih =>
    cases hpa : p a with
    | true =>
      rw [List.filter_cons_of_pos hpa] at h
      injection h with h₁ h₂
      rw [List.find?_cons_of_pos _ hpa, h₁]
    | false =>
      rw [List.filter_cons_of_neg (by simp [hpa])] at h
      rw [List.find?_cons_of_neg _ (by simp [hpa])]
      exact ih h

theorem findDevice_perm {dks₁ dks₂ : List (String × Composite)} (m : VToken)
    (hp : dks₁.Perm dks₂)
    (hlat : getLatestVersion (dks₁.map (·.2)) = some m)
    (huniq : (dks₁.filter (fun gk => latestToken gk.2 == m)).length = 1) :
    findDeviceWithLatestKnowledge dks₁ = findDeviceWithLatestKnowledge dks₂ := by
  have hlat₂ : getLatestVersion (dks₂.map (·.2)) = some m :=
    (getLatestVersion_perm (hp.map _)).symm.trans hlat
  obtain ⟨x, hx⟩ := List.length_eq_one.mp huniq
  have hx₂ : dks₂.filter (fun gk => latestToken gk.2 == m) = [x] :=
    List.perm_singleton.mp ((hp.filter _).symm.trans (hx ▸ List.Perm.refl _))
  unfold findDeviceWithLatestKnowledge
  rw [hlat, hlat₂]
  simp only [find?_of_filter_singleton hx, find?_of_filter_singleton hx₂]

theorem append_tmp_ne (p : String) : p ++ ".tmp" ≠ p := by
  intro h
  have hlen := congrArg String.length h
  rw [String.length_append] at hlen
  have h4 : String.length ".tmp" = 4 := rfl
  omega

/-! ### Claim theorems -/

/-- C1: `discover_change_files` returns the replica directory's change files
sorted in ascending order of the effective version (maximum-counter token) of
the start-of-range token parsed from each filename — not lexical filename
order — and in particular orders `A-5000,B-50_A-5001,B-51.ydiff` before
`A-1,B-9999_A-2,B-10000.ydiff` because 5000 < 9999. -/
theorem discover_sorted_by_effective_start_version :
    (∀ (listing l : List String), discoverDeltaFiles listing = some l →
        l.Perm (listing.filter hasYdiffExt) ∧ List.Sorted startKeyLe l) ∧
    discoverDeltaFiles
        ["A-1,B-9999_A-2,B-10000.ydiff", "A-5000,B-50_A-5001,B-51.ydiff"] =
      some ["A-5000,B-50_A-5001,B-51.ydiff", "A-1,B-9999_A-2,B-10000.ydiff"] := by
  constructor
  · intro listing l h
    unfold discoverDeltaFiles at h
    by_cases hall : (listing.filter hasYdiffExt).all
        (fun n => (deltaStartKey n).isSome) = true
    · rw [if_pos hall] at h
      injection h with h
      subst h
      exact ⟨List.perm_insertionSort _ _, List.sorted_insertionSort _ _⟩
    · rw [if_neg hall] at h
      exact absurd h (by simp)
  · decide

/-- C1 witness: the theorem applied to the two-filename example. -/
theorem discover_sorted_by_effective_start_version_witness :
    (["A-5000,B-50_A-5001,B-51.ydiff", "A-1,B-9999_A-2,B-10000.ydiff"] :
        List String).Perm
      ((["A-1,B-9999_A-2,B-10000.ydiff", "A-5000,B-50_A-5001,B-51.ydiff"] :
        List String).filter hasYdiffExt) ∧
    List.Sorted startKeyLe
      ["A-5000,B-50_A-5001,B-51.ydiff", "A-1,B-9999_A-2,B-10000.ydiff"] :=
  discover_sorted_by_effective_start_version.1
    ["A-1,B-9999_A-2,B-10000.ydiff", "A-5000,B-50_A-5001,B-51.ydiff"]
    ["A-5000,B-50_A-5001,B-51.ydiff", "A-1,B-9999_A-2,B-10000.ydiff"]
    (by decide)

/-- C2: a record whose id already exists replaces the stored entity (patching
the record's fields over the existing one) only when its effective-version
counter is strictly greater, is a no-op otherwise, and consequently applying
the same change file twice from any state equals applying it once. -/
theorem apply_record_lww_and_idempotent :
    (∀ (c : Collections) (it : DeltaItem) (ex : Entity),
        knownEntityTypes.contains it.entityType = true →
        it.isTombstone = false →
        c it.entityType it.entityId = some ex →
        (effNum it.entityVersion > effNum ex.entityVersion →
          applyItem c it =
            updateAt c it.entityType it.entityId (some (patchEntity ex it))) ∧
        (¬ effNum it.entityVersion > effNum ex.entityVersion →
          applyItem c it = c)) ∧
    (∀ (c : Collections) (items : List DeltaItem),
        applyDelta (applyDelta c items) items = applyDelta c items) := by
  constructor
  · intro c it ex hk htomb hc
    have hk' : it.entityType ∈ knownEntityTypes := by simpa using hk
    constructor
    · intro hgt
      simp [applyItem, hk', htomb, hc, hgt]
    · intro hgt
      simp [applyItem, hk', htomb, hc, hgt]
  · exact applyDelta_idem

/-- C2 witness: the per-record update at a concrete state and record, and
double application of a concrete one-record file. -/
theorem apply_record_lww_and_idempotent_witness :
    applyItem cW itW = updateAt cW "payee" "X" (some (patchEntity exEntity3 itW)) ∧
    applyDelta (applyDelta cW [itW]) [itW] = applyDelta cW [itW] :=
  ⟨(apply_record_lww_and_idempotent.1 cW itW exEntity3 (by decide) rfl rfl).1
      (by decide),
   apply_record_lww_and_idempotent.2 cW [itW]⟩

/-- C3 counterexample: `compare_versions` compares replica ids first, so
`compare(B-1, A-99)` is `1` — positive, not negative — although counter
1 < 99. -/
theorem compare_versions_counter_not_primary :
    compareVersions ⟨'B', 1⟩ ⟨'A', 99⟩ = 1 ∧ (1 : Nat) < 99 ∧
      ¬ compareVersions ⟨'B', 1⟩ ⟨'A', 99⟩ < 0 := by
  decide

/-- C3 amended: `compare_versions` orders primarily by replica id
(lexicographically ascending) and secondarily by counter; `compare(A-99, B-1)`
is negative because `A < B`, equal ids follow counter order, and comparing a
token with itself yields 0. -/
theorem compare_versions_replica_primary :
    (∀ a b : VToken, a.id < b.id → compareVersions a b = -1) ∧
    (∀ a b : VToken, a.id = b.id → a.num < b.num → compareVersions a b = -1) ∧
    (∀ a b : VToken, a.id = b.id → b.num < a.num → compareVersions a b = 1) ∧
    (∀ a : VToken, compareVersions a a = 0) ∧
    compareVersions ⟨'A', 99⟩ ⟨'B', 1⟩ = -1 := by
  refine ⟨?_, ?_, ?_, ?_, by decide⟩
  · intro a b h
    simp [compareVersions, h]
  · intro a b h hn
    simp [compareVersions, h, lt_irrefl, hn]
  · intro a b h hn
    simp [compareVersions, h, lt_irrefl, hn, Nat.lt_asymm hn]
  · intro a
    simp [compareVersions]

/-- C3 amended witness: the theorem applied at concrete tokens. -/
theorem compare_versions_replica_primary_witness :
    compareVersions ⟨'A', 5⟩ ⟨'B', 3⟩ = -1 ∧
    compareVersions ⟨'C', 2⟩ ⟨'C', 7⟩ = -1 ∧
    compareVersions ⟨'C', 7⟩ ⟨'C', 2⟩ = 1 ∧
    compareVersions ⟨'D', 4⟩ ⟨'D', 4⟩ = 0 :=
  ⟨compare_versions_replica_primary.1 ⟨'A', 5⟩ ⟨'B', 3⟩ (by decide),
   compare_versions_replica_primary.2.1 ⟨'C', 2⟩ ⟨'C', 7⟩ rfl (by decide),
   compare_versions_replica_primary.2.2.1 ⟨'C', 7⟩ ⟨'C', 2⟩ rfl (by decide),
   compare_versions_replica_primary.2.2.2.1 ⟨'D', 4⟩⟩

/-- C4: version-bounded replay applies exactly the prefix of discovered files
whose end-of-range counter is at most the target (equality included),
stopping before the first file beyond it, and target 0 applies no files and
returns the snapshot state. -/
theorem replay_applies_prefix_up_to_target :
    (∀ (snapshot : Collections) (files : List DeltaFileData) (T : Int),
        0 < T →
        parseUpToVersion snapshot files T =
          (List.foldl (fun c f => applyDelta c f.items) snapshot
             (files.takeWhile (fun f => (endNumOf f : Int) ≤ T)),
           (files.takeWhile (fun f => (endNumOf f : Int) ≤ T)).map (·.name))) ∧
    (∀ (snapshot : Collections) (files : List DeltaFileData),
        parseUpToVersion snapshot files 0 = (snapshot, [])) := by
  constructor
  · intro snapshot files T hT
    rw [parseUpToVersion, if_pos hT, applyDeltasUpToVersion_eq]
    simp
  · intro snapshot files
    rw [parseUpToVersion, if_neg (by omega)]

/-- C4 witness: the theorem applied at target 3 over files ending at 2 and 5,
and at target 0. -/
theorem replay_applies_prefix_up_to_target_witness :
    parseUpToVersion emptyCollections filesW 3 =
      (List.foldl (fun c f => applyDelta c f.items) emptyCollections
         (filesW.takeWhile (fun f => (endNumOf f : Int) ≤ 3)),
       (filesW.takeWhile (fun f => (endNumOf f : Int) ≤ 3)).map (·.name)) ∧
    parseUpToVersion emptyCollections filesW 0 = (emptyCollections, []) :=
  ⟨replay_applies_prefix_up_to_target.1 emptyCollections filesW 3 (by norm_num),
   replay_applies_prefix_up_to_target.2 emptyCollections filesW⟩

/-- C5: restoring to version N and then re-restoring to M < N yields the same
entity collections as restoring to M directly — replay restarts from the
saved snapshot baseline, it is never incremental-only. -/
theorem restore_replays_from_snapshot :
    ∀ (p : ParserState) (N M : Int) (p₁ : ParserState), M < N →
      restoreToVersion p N = Except.ok p₁ →
      (restoreToVersion p₁ M).map (fun q => q.collections) =
        (restoreToVersion p M).map (fun q => q.collections) := by
  intro p N M p₁ _ hok
  have hshape : p₁.baseState = p.baseState ∧ p₁.files = p.files := by
    unfold restoreToVersion at hok
    cases hv : validateTargetVersion p.files N with
    | error e =>
      rw [hv] at hok
      exact absurd hok (by simp)
    | ok u =>
      cases u
      rw [hv] at hok
      by_cases h0 : N = 0
      · rw [if_pos h0] at hok
        have := Except.ok.inj hok
        rw [← this]
        exact ⟨rfl, rfl⟩
      · rw [if_neg h0] at hok
        have := Except.ok.inj hok
        rw [← this]
        exact ⟨rfl, rfl⟩
  obtain ⟨hb, hf⟩ := hshape
  unfold restoreToVersion
  rw [hf, hb]

/-- C5 witness: restore to 5 then to 2 equals restoring to 2 directly on the
concrete two-file state. -/
theorem restore_replays_from_snapshot_witness :
    (restoreToVersion p1W 2).map (fun q => q.collections) =
      (restoreToVersion pW 2).map (fun q => q.collections) :=
  restore_replays_from_snapshot pW 5 2 p1W (by norm_num) rfl

/-- C6 counterexample: folding insert-at-`A-10`, tombstone, re-insert-at-`A-1`
over empty collections stores `X` at counter 1, although the record at counter
10 was seen for this id during the fold (its effect was deletion followed by
re-insertion) — the stored version is not ≥ every seen version. -/
theorem fold_version_invariant_counterexample :
    (applyDelta emptyCollections cexItems "payee" "X").map
        (fun e => effNum e.entityVersion) = some 1 ∧
    itemA10 ∈ cexItems ∧ itemA10.entityId = "X" ∧
    itemA10.entityType = "payee" ∧ effNum itemA10.entityVersion = 10 ∧
    ¬ (10 : Nat) ≤ 1 := by
  refine ⟨rfl, ?_, rfl, rfl, rfl, by decide⟩
  exact List.mem_cons_self _ _

/-- C6 amended: for every entity id that saw no tombstone record during the
fold, every entity present afterwards has a stored effective-version counter
greater than or equal to the counter of every record seen for that id; a
deletion followed by re-insertion may regress the stored counter. -/
theorem fold_monotone_lww_without_tombstones :
    ∀ (c : Collections) (items : List DeltaItem) (t eid : String) (e : Entity),
      knownEntityTypes.contains t = true →
      (∀ it ∈ items, it.entityType = t → it.entityId = eid →
        it.isTombstone = false) →
      applyDelta c items t eid = some e →
      ∀ it ∈ items, it.entityType = t → it.entityId = eid →
        effNum it.entityVersion ≤ effNum e.entityVersion := by
  intro c items t eid e hk hnt happ it hit hty hid
  rw [applyDelta_slot] at happ
  have hmem : it ∈ items.filter (targetsSlot t eid) := by
    rw [List.mem_filter]
    refine ⟨hit, ?_⟩
    have hk' : t ∈ knownEntityTypes := by simpa using hk
    simp [targetsSlot, hty, hid, hk']
  have htf : ∀ x ∈ items.filter (targetsSlot t eid), x.isTombstone = false := by
    intro x hx
    rw [List.mem_filter] at hx
    obtain ⟨hx1, hx2⟩ := hx
    simp only [targetsSlot, Bool.and_eq_true, beq_iff_eq] at hx2
    exact hnt x hx1 hx2.1.2 hx2.2
  exact runSlot_ub _ htf _ e happ it hmem

/-- C6 amended witness: one tombstone-free record folded over empty
collections. -/
theorem fold_monotone_lww_without_tombstones_witness :
    effNum itemA10.entityVersion ≤ effNum (newEntity itemA10).entityVersion :=
  fold_monotone_lww_without_tombstones emptyCollections [itemA10] "payee" "X"
    (newEntity itemA10) (by decide)
    (fun it hit _ _ => by rw [List.mem_singleton.mp hit]; rfl)
    rfl itemA10 (List.mem_singleton.mpr rfl) rfl rfl

/-- C7 counterexample: `parse_up_to_version` performs no validation — for the
unavailable target 3 (available set `{0, 2, 5}`) it silently applies the one
file ending at 2 and returns, while only `restore_to_version` raises. -/
theorem parse_up_to_version_skips_validation :
    (parseUpToVersion emptyCollections filesW 3).2 = ["A-1_A-2.ydiff"] ∧
    (3 : Int) ∉ getAvailableVersions filesW ∧
    restoreToVersion pW 3 =
      Except.error (VersionError.notFound 3 [0, 2, 5]) := by
  exact ⟨rfl, by decide, rfl⟩

/-- C7 amended: only `restore_to_version` validates the target: a negative
target fails naming the requested value (with a non-negativity bound, not the
valid set), a non-negative target outside the available set fails naming the
requested value and the valid set; `parse_up_to_version` never validates and
silently applies the prefix of files with end version at most the target
(none when the target is not positive). -/
theorem restore_validates_parse_does_not :
    (∀ (p : ParserState) (T : Int), T < 0 →
        restoreToVersion p T = Except.error (VersionError.nonNegative T)) ∧
    (∀ (p : ParserState) (T : Int), 0 ≤ T →
        (getAvailableVersions p.files).contains T = false →
        restoreToVersion p T =
          Except.error (VersionError.notFound T (getAvailableVersions p.files))) ∧
    (∀ (snapshot : Collections) (files : List DeltaFileData) (T : Int),
        (parseUpToVersion snapshot files T).2 =
          if 0 < T then
            (files.takeWhile (fun f => (endNumOf f : Int) ≤ T)).map (·.name)
          else []) := by
  refine ⟨?_, ?_, ?_⟩
  · intro p T hT
    apply restoreToVersion_error_shape
    unfold validateTargetVersion
    rw [if_pos hT]
  · intro p T hT hc
    apply restoreToVersion_error_shape
    unfold validateTargetVersion
    rw [if_neg (by omega), if_neg (by simpa using hc)]
  · intro snapshot files T
    by_cases hT : 0 < T
    · rw [parseUpToVersion, if_pos hT, applyDeltasUpToVersion_eq, if_pos hT]
      simp
    · rw [parseUpToVersion, if_neg hT, if_neg hT]

/-- C7 amended witness: the validation failures at −1 and 3 over the concrete
state, and the silent prefix for target 3. -/
theorem restore_validates_parse_does_not_witness :
    restoreToVersion pW (-1) =
      Except.error (VersionError.nonNegative (-1)) ∧
    restoreToVersion pW 3 =
      Except.error (VersionError.notFound 3 (getAvailableVersions pW.files)) ∧
    (parseUpToVersion emptyCollections filesW 3).2 =
      if (0 : Int) < 3 then
        (filesW.takeWhile (fun f => (endNumOf f : Int) ≤ 3)).map (·.name)
      else [] :=
  ⟨restore_validates_parse_does_not.1 pW (-1) (by norm_num),
   restore_validates_parse_does_not.2.1 pW 3 (by norm_num) (by decide),
   restore_validates_parse_does_not.2.2 emptyCollections filesW 3⟩

/-- C8 counterexample: `write_changes` writes the new change file directly at
its final path — the trace contains a direct write of the final path, so the
temp-then-atomic-rename mechanism is violated. -/
theorem write_changes_not_atomic :
    ¬ atomicReplacePattern
        (writeChangesOps "dir" "A-1_A-2.ydiff" "dev/A.ydevice" "ydiff-json"
          "ydevice-json")
        ("dir" ++ "/" ++ "A-1_A-2.ydiff") := by
  intro h
  exact h.1 "ydiff-json" (List.mem_cons_self _ _)

/-- C8 amended: `write_changes` serializes the change file in memory and
writes it directly at its final path in one step (no temporary path, no
rename); only the `.ydevice` metadata update uses write-temp-then-rename, and
on a failure during that update the temp file is deleted and the metadata
path is never written or renamed onto. -/
theorem write_changes_direct_ydiff_atomic_ydevice :
    (∀ dir fname dpath c₁ c₂,
        FsOp.write (dir ++ "/" ++ fname) c₁ ∈
          writeChangesOps dir fname dpath c₁ c₂) ∧
    (∀ dir fname dpath c₁ c₂, dpath ≠ dir ++ "/" ++ fname →
        atomicReplacePattern (writeChangesOps dir fname dpath c₁ c₂) dpath) ∧
    (∀ dpath c,
        (∀ content, FsOp.write dpath content ∉
          updateDeviceKnowledgeOps dpath c true) ∧
        (∀ src, FsOp.rename src dpath ∉ updateDeviceKnowledgeOps dpath c true) ∧
        FsOp.delete (dpath ++ ".tmp") ∈ updateDeviceKnowledgeOps dpath c true) := by
  refine ⟨?_, ?_, ?_⟩
  · intro dir fname dpath c₁ c₂
    exact List.mem_cons_self _ _
  · intro dir fname dpath c₁ c₂ hne
    constructor
    · intro content hmem
      simp [writeChangesOps, updateDeviceKnowledgeOps] at hmem
      rcases hmem with ⟨h, _⟩ | ⟨h, _⟩
      · exact hne h
      · exact append_tmp_ne dpath h.symm
    · refine ⟨dpath ++ ".tmp", c₂, append_tmp_ne dpath, ?_, ?_⟩
      · simp [writeChangesOps, updateDeviceKnowledgeOps]
      · simp [writeChangesOps, updateDeviceKnowledgeOps]
  · intro dpath c
    refine ⟨?_, ?_, ?_⟩
    · intro content hmem
      simp [updateDeviceKnowledgeOps] at hmem
      exact append_tmp_ne dpath hmem.1.symm
    · intro src hmem
      simp [updateDeviceKnowledgeOps] at hmem
    · simp [updateDeviceKnowledgeOps]

/-- C8 amended witness: the direct write and the atomic metadata update at
concrete paths. -/
theorem write_changes_direct_ydiff_atomic_ydevice_witness :
    FsOp.write ("dir" ++ "/" ++ "A-1_A-2.ydiff") "ydiff-json" ∈
      writeChangesOps "dir" "A-1_A-2.ydiff" "dev/A.ydevice" "ydiff-json"
        "ydevice-json" ∧
    atomicReplacePattern
      (writeChangesOps "dir" "A-1_A-2.ydiff" "dev/A.ydevice" "ydiff-json"
        "ydevice-json") "dev/A.ydevice" :=
  ⟨write_changes_direct_ydiff_atomic_ydevice.1 "dir" "A-1_A-2.ydiff"
      "dev/A.ydevice" "ydiff-json" "ydevice-json",
   write_changes_direct_ydiff_atomic_ydevice.2.1 "dir" "A-1_A-2.ydiff"
      "dev/A.ydevice" "ydiff-json" "ydevice-json" (by decide)⟩

/-- C9: evaluating the bug — `_create_budget_object` passes the
payee-string-condition collection, but the `Budget` model declares no such
field, so a state holding a payee-string-condition entity yields a `Budget`
equal to that of empty collections: the entity appears nowhere in the
returned `Budget`. -/
theorem budget_drops_payee_string_conditions :
    createBudgetObject cPSC = createBudgetObject emptyCollections ∧
    cPSC "payeeStringCondition" "PSC-1" = some pscEntity := by
  exact ⟨by unfold createBudgetObject; congr 1, rfl⟩

/-- C10 counterexample: two directory listings that are permutations of each
other (two change files whose effective start counters tie at 5) assemble to
different collections — payee `X`'s field `m` ends as 1 under one listing
order and 2 under the other. -/
theorem assemble_depends_on_listing_order :
    ([nTie1, nTie2] : List String).Perm [nTie2, nTie1] ∧
    projC (assembleFromListing emptyCollections contentsC [nTie1, nTie2]) =
      some (some 1) ∧
    projC (assembleFromListing emptyCollections contentsC [nTie2, nTie1]) =
      some (some 2) := by
  exact ⟨List.Perm.swap _ _ _, rfl, rfl⟩

/-- C10 amended: assembly is independent of directory iteration order
whenever the effective start counters of the change files are pairwise
distinct (the stable sort then has no ties), and active-replica selection is
independent of iteration order whenever exactly one device's knowledge
attains the maximal effective token. -/
theorem assemble_order_independent_without_ties :
    (∀ (snapshot : Collections) (contents : String → List DeltaItem)
        (l₁ l₂ : List String), l₁.Perm l₂ →
        (l₁.filter hasYdiffExt).Pairwise
          (fun a b => deltaStartKey a ≠ deltaStartKey b) →
        assembleFromListing snapshot contents l₁ =
          assembleFromListing snapshot contents l₂) ∧
    (∀ (dks₁ dks₂ : List (String × Composite)) (m : VToken), dks₁.Perm dks₂ →
        getLatestVersion (dks₁.map (·.2)) = some m →
        (dks₁.filter (fun gk => latestToken gk.2 == m)).length = 1 →
        findDeviceWithLatestKnowledge dks₁ =
          findDeviceWithLatestKnowledge dks₂) := by
  constructor
  · intro snapshot contents l₁ l₂ hp hd
    unfold assembleFromListing
    rw [discoverDeltaFiles_perm_eq hp hd]
  · intro dks₁ dks₂ m hp hlat huniq
    exact findDevice_perm m hp hlat huniq

/-- C10 amended witness: swapped listings with distinct start counters, and
swapped device records with a unique maximal knowledge token. -/
theorem assemble_order_independent_without_ties_witness :
    assembleFromListing emptyCollections contentsC
        ["A-1_A-2.ydiff", "A-2_A-5.ydiff"] =
      assembleFromListing emptyCollections contentsC
        ["A-2_A-5.ydiff", "A-1_A-2.ydiff"] ∧
    findDeviceWithLatestKnowledge
        [("g1", (⟨⟨'A', 5⟩, []⟩ : Composite)), ("g2", ⟨⟨'B', 3⟩, []⟩)] =
      findDeviceWithLatestKnowledge
        [("g2", (⟨⟨'B', 3⟩, []⟩ : Composite)), ("g1", ⟨⟨'A', 5⟩, []⟩)] :=
  ⟨assemble_order_independent_without_ties.1 emptyCollections contentsC
      ["A-1_A-2.ydiff", "A-2_A-5.ydiff"] ["A-2_A-5.ydiff", "A-1_A-2.ydiff"]
      (List.Perm.swap _ _ _) (by decide),
   assemble_order_independent_without_ties.2
      [("g1", (⟨⟨'A', 5⟩, []⟩ : Composite)), ("g2", ⟨⟨'B', 3⟩, []⟩)]
      [("g2", (⟨⟨'B', 3⟩, []⟩ : Composite)), ("g1", ⟨⟨'A', 5⟩, []⟩)]
      ⟨'A', 5⟩ (List.Perm.swap _ _ _) (by decide) (by decide)⟩

end YnabIO
